import Mathlib

/-!
Shallow embedding of the portfolio-rebalancer core (src/src/models.py,
src/src/portfolio.py, src/src/optimizers/*.py).

Python Decimal arithmetic is modelled exactly over ℚ; Python ints over ℤ;
insertion-ordered dicts over association lists (List); a raised ValueError
over Except.error, with exception propagation written as explicit match
chains.  The external MILP solver (scipy.optimize.milp) is modelled as a
parameter: an Option holding the integral solution vector on success.
-/

set_option linter.unusedVariables false

/-- Python Decimal floor division (the // operator) truncates the true
quotient toward zero. -/
def truncQ (x : ℚ) : ℤ := if 0 ≤ x then ⌊x⌋ else ⌈x⌉

/-- models.py Stock: a holding with symbol, integer quantity and price. -/
structure Stock where
  symbol : String
  quantity : ℤ
  current_price : ℚ
deriving DecidableEq, Repr

/-- models.py Stock.market_value: quantity times current price. -/
def Stock.market_value (s : Stock) : ℚ := (s.quantity : ℚ) * s.current_price

/-- models.py RebalanceOrder action literal. -/
inductive OrderAction where
  | BUY
  | SELL
deriving DecidableEq, Repr

/-- models.py RebalanceOrder. -/
structure RebalanceOrder where
  action : OrderAction
  symbol : String
  shares : ℤ
  dollar_amount : ℚ
  target_dollars : ℚ
  deviation_dollars : ℚ
deriving DecidableEq, Repr

/-- The distinct ValueError conditions raised by the core, one constructor
per raise site family (portfolio.py and optimizers).  unknownStrategy is the
error the spec and the test suite name for an unrecognized strategy
argument to Portfolio.rebalance. -/
inductive RebalanceError where
  | invalidAllocation
  | noTargetAllocation
  | missingPrice (symbol : String)
  | divisionByZero (symbol : String)
  | unknownStrategy (name : String)
deriving DecidableEq, Repr

deriving instance DecidableEq for Except

/-- Dict lookup on an insertion-ordered association list of weights or
prices (the target_allocation and price_lookup dicts). -/
def lookupAssoc : List (String × ℚ) → String → Option ℚ
  | [], _ => none
  | p :: rest, sym => if p.1 = sym then some p.2 else lookupAssoc rest sym

/-- Dict lookup on the holdings map keyed by stock symbol. -/
def findStock : List Stock → String → Option Stock
  | [], _ => none
  | s :: rest, sym => if s.symbol = sym then some s else findStock rest sym

/-- Resolution of a target symbol to (current_value, price): from holdings
if held, else from the price lookup with current value 0, else the
MissingPrice error (simple.py lines 34-45). -/
def resolveSymbol (holdings : List Stock) (priceLookup : List (String × ℚ))
    (symbol : String) : Except RebalanceError (ℚ × ℚ) :=
  match findStock holdings symbol with
  | some stock => .ok (stock.market_value, stock.current_price)
  | none =>
    match lookupAssoc priceLookup symbol with
    | some price => .ok (0, price)
    | none => .error (.missingPrice symbol)

/-- Body of the per-target-symbol loop of simple.py lines 47-72: delta,
skip on zero delta, Decimal floor division of the absolute delta by the
price (a DivisionByZero ValueError when the price is zero), skip on zero
shares, otherwise emit the order. -/
def targetOrder (total : ℚ) (symbol : String) (target_pct current_value price : ℚ) :
    Except RebalanceError (Option RebalanceOrder) :=
  let target_value := total * target_pct
  let delta := target_value - current_value
  if delta = 0 then .ok none
  else if price = 0 then .error (.divisionByZero symbol)
  else
    let shares := truncQ (|delta| / price)
    if shares = 0 then .ok none
    else
      let actual := (shares : ℚ) * price
      .ok (some
        { action := if delta > 0 then .BUY else .SELL
        , symbol := symbol
        , shares := shares
        , dollar_amount := actual
        , target_dollars := |delta|
        , deviation_dollars := |delta| - actual })

/-- Step 1 of simple.py calculate_orders: iterate the target allocation in
order, resolving each symbol and appending its order when one is emitted;
the first raised error aborts the whole computation. -/
def processTargets (holdings : List Stock) (priceLookup : List (String × ℚ))
    (total : ℚ) : List (String × ℚ) → Except RebalanceError (List RebalanceOrder)
  | [] => .ok []
  | (symbol, pct) :: rest =>
    match resolveSymbol holdings priceLookup symbol with
    | .error e => .error e
    | .ok (current_value, price) =>
      match targetOrder total symbol pct current_value price with
      | .error e => .error e
      | .ok o =>
        match processTargets holdings priceLookup total rest with
        | .error e => .error e
        | .ok others =>
          match o with
          | some ord => .ok (ord :: others)
          | none => .ok others

/-- Step 2 of simple.py calculate_orders (lines 74-86): append a full-sell
order for every held symbol absent from the target allocation with
positive quantity, in holdings iteration order. -/
def liquidationOrders (target : List (String × ℚ)) : List Stock → List RebalanceOrder
  | [] => []
  | s :: rest =>
    if lookupAssoc target s.symbol = none ∧ 0 < s.quantity then
      { action := .SELL
      , symbol := s.symbol
      , shares := s.quantity
      , dollar_amount := s.market_value
      , target_dollars := s.market_value
      , deviation_dollars := 0 } :: liquidationOrders target rest
    else liquidationOrders target rest

/-- simple.py SimpleRebalanceStrategy.calculate_orders. -/
def simpleCalculateOrders (holdings : List Stock) (target : List (String × ℚ))
    (total : ℚ) (priceLookup : List (String × ℚ)) :
    Except RebalanceError (List RebalanceOrder) :=
  if total = 0 then .ok []
  else
    match processTargets holdings priceLookup total target with
    | .error e => .error e
    | .ok tOrders => .ok (tOrders ++ liquidationOrders target holdings)

/-- portfolio.py Portfolio state: holdings dict and target allocation dict,
both insertion ordered. -/
structure Portfolio where
  holdings : List Stock
  target_allocation : List (String × ℚ)
deriving DecidableEq, Repr

/-- portfolio.py Portfolio.total_value: sum of market values, 0 when empty. -/
def totalValue (p : Portfolio) : ℚ := (p.holdings.map Stock.market_value).sum

/-- Body of the per-target-symbol loop inlined in portfolio.py rebalance
lines 66-105 (a verbatim copy of the simple strategy loop body). -/
def rebalanceTargetOrder (total : ℚ) (symbol : String)
    (target_pct current_value price : ℚ) :
    Except RebalanceError (Option RebalanceOrder) :=
  let target_value := total * target_pct
  let delta := target_value - current_value
  if delta = 0 then .ok none
  else if price = 0 then .error (.divisionByZero symbol)
  else
    let shares := truncQ (|delta| / price)
    if shares = 0 then .ok none
    else
      let actual := (shares : ℚ) * price
      .ok (some
        { action := if delta > 0 then .BUY else .SELL
        , symbol := symbol
        , shares := shares
        , dollar_amount := actual
        , target_dollars := |delta|
        , deviation_dollars := |delta| - actual })

/-- Step 1 of portfolio.py rebalance: the inline loop over the target
allocation (mirrors processTargets of the simple strategy). -/
def rebalanceProcessTargets (holdings : List Stock) (priceLookup : List (String × ℚ))
    (total : ℚ) : List (String × ℚ) → Except RebalanceError (List RebalanceOrder)
  | [] => .ok []
  | (symbol, pct) :: rest =>
    match resolveSymbol holdings priceLookup symbol with
    | .error e => .error e
    | .ok (current_value, price) =>
      match rebalanceTargetOrder total symbol pct current_value price with
      | .error e => .error e
      | .ok o =>
        match rebalanceProcessTargets holdings priceLookup total rest with
        | .error e => .error e
        | .ok others =>
          match o with
          | some ord => .ok (ord :: others)
          | none => .ok others

/-- Step 2 of portfolio.py rebalance lines 107-117: sell holdings not in
the target allocation. -/
def rebalanceLiquidations (target : List (String × ℚ)) : List Stock → List RebalanceOrder
  | [] => []
  | s :: rest =>
    if lookupAssoc target s.symbol = none ∧ 0 < s.quantity then
      { action := .SELL
      , symbol := s.symbol
      , shares := s.quantity
      , dollar_amount := s.market_value
      , target_dollars := s.market_value
      , deviation_dollars := 0 } :: rebalanceLiquidations target rest
    else rebalanceLiquidations target rest

/-- portfolio.py Portfolio.rebalance: NoTargetAllocation when no target is
set, empty list when the total value is 0, otherwise the inline simple
computation followed by liquidations.  The source accepts only a
price_lookup argument (a missing lookup is the empty dict). -/
def portfolioRebalance (p : Portfolio) (priceLookup : List (String × ℚ)) :
    Except RebalanceError (List RebalanceOrder) :=
  if p.target_allocation = [] then .error .noTargetAllocation
  else
    if totalValue p = 0 then .ok []
    else
      match rebalanceProcessTargets p.holdings priceLookup (totalValue p)
          p.target_allocation with
      | .error e => .error e
      | .ok tOrders => .ok (tOrders ++ rebalanceLiquidations p.target_allocation p.holdings)

/-- First loop of portfolio.py set_target_allocation: per-weight range
check; a weight outside [0, 1] raises InvalidAllocation. -/
def checkWeights : List (String × ℚ) → Option RebalanceError
  | [] => none
  | (_, pct) :: rest =>
    if pct < 0 ∨ pct > 1 then some .invalidAllocation else checkWeights rest

/-- portfolio.py Portfolio.set_target_allocation: range-check every weight,
then check that the sum is within 0.0001 of 1, then store a copy. -/
def setTargetAllocation (alloc : List (String × ℚ)) :
    Except RebalanceError (List (String × ℚ)) :=
  match checkWeights alloc with
  | some e => .error e
  | none =>
    let total := (alloc.map Prod.snd).sum
    if |total - 1| > 1 / 10000 then .error .invalidAllocation
    else .ok alloc

/-- Per-symbol data gathered by the optimizer collection loops: symbol,
price, current quantity (0 when unheld) and target weight. -/
structure SymbolData where
  symbol : String
  price : ℚ
  qty : ℤ
  weight : ℚ
deriving DecidableEq, Repr

/-- Collection loop of tracking_error.py lines 58-73 and
trade_minimization.py lines 67-82: resolve each target symbol to its price
and current quantity, raising MissingPrice when neither holdings nor the
price lookup has it. -/
def collectData (holdings : List Stock) (priceLookup : List (String × ℚ)) :
    List (String × ℚ) → Except RebalanceError (List SymbolData)
  | [] => .ok []
  | (symbol, w) :: rest =>
    match findStock holdings symbol with
    | some st =>
      match collectData holdings priceLookup rest with
      | .error e => .error e
      | .ok others => .ok (⟨symbol, st.current_price, st.quantity, w⟩ :: others)
    | none =>
      match lookupAssoc priceLookup symbol with
      | some price =>
        match collectData holdings priceLookup rest with
        | .error e => .error e
        | .ok others => .ok (⟨symbol, price, 0, w⟩ :: others)
      | none => .error (.missingPrice symbol)

/-- Order extraction of tracking_error.py lines 137-165: per symbol, delta
between the solved share count and the current quantity; zero deltas are
skipped; target dollars is the pre-trade deviation and deviation dollars
the post-trade residual, both against weight times total value. -/
def ordersFromSolutionTE (total : ℚ) :
    List SymbolData → List ℤ → List RebalanceOrder
  | [], _ => []
  | _ :: _, [] => []
  | d :: rest, x :: xs =>
    let delta := x - d.qty
    if delta = 0 then ordersFromSolutionTE total rest xs
    else
      let tval := d.weight * total
      { action := if delta > 0 then .BUY else .SELL
      , symbol := d.symbol
      , shares := |delta|
      , dollar_amount := ((|delta| : ℤ) : ℚ) * d.price
      , target_dollars := |tval - (d.qty : ℚ) * d.price|
      , deviation_dollars := |tval - (x : ℚ) * d.price| } ::
        ordersFromSolutionTE total rest xs

/-- Order extraction of trade_minimization.py lines 165-193 (same shape as
the tracking-error extraction; the target dollar value is weight times
total value, independent of the tolerance band). -/
def ordersFromSolutionTM (total : ℚ) :
    List SymbolData → List ℤ → List RebalanceOrder
  | [], _ => []
  | _ :: _, [] => []
  | d :: rest, x :: xs =>
    let delta := x - d.qty
    if delta = 0 then ordersFromSolutionTM total rest xs
    else
      let tval := d.weight * total
      { action := if delta > 0 then .BUY else .SELL
      , symbol := d.symbol
      , shares := |delta|
      , dollar_amount := ((|delta| : ℤ) : ℚ) * d.price
      , target_dollars := |tval - (d.qty : ℚ) * d.price|
      , deviation_dollars := |tval - (x : ℚ) * d.price| } ::
        ordersFromSolutionTM total rest xs

/-- tracking_error.py TrackingErrorStrategy.calculate_orders, with the
external scipy milp call abstracted: solver holds the integral x block of a
successful solve; none models a failed solve, which falls back to the
simple strategy on identical inputs. -/
def trackingErrorCalculateOrders (holdings : List Stock)
    (target : List (String × ℚ)) (total : ℚ) (priceLookup : List (String × ℚ))
    (solver : Option (List ℤ)) : Except RebalanceError (List RebalanceOrder) :=
  if total = 0 then .ok []
  else
    match collectData holdings priceLookup target with
    | .error e => .error e
    | .ok data =>
      match solver with
      | none => simpleCalculateOrders holdings target total priceLookup
      | some xs =>
        .ok (ordersFromSolutionTE total data xs ++ liquidationOrders target holdings)

/-- trade_minimization.py TradeMinimizationStrategy.calculate_orders, with
the external scipy milp call abstracted exactly as in the tracking-error
strategy; the tolerance only shapes the MILP instance given to the solver. -/
def tradeMinCalculateOrders (tolerance : ℚ) (holdings : List Stock)
    (target : List (String × ℚ)) (total : ℚ) (priceLookup : List (String × ℚ))
    (solver : Option (List ℤ)) : Except RebalanceError (List RebalanceOrder) :=
  if total = 0 then .ok []
  else
    match collectData holdings priceLookup target with
    | .error e => .error e
    | .ok data =>
      match solver with
      | none => simpleCalculateOrders holdings target total priceLookup
      | some xs =>
        .ok (ordersFromSolutionTM total data xs ++ liquidationOrders target holdings)

/-- One linear constraint row handed to scipy.optimize.milp: coefficient
vector with optional lower and upper bounds (none models an infinite
bound). -/
structure MilpRow where
  coeffs : List ℚ
  lb : Option ℚ
  ub : Option ℚ
deriving DecidableEq, Repr

/-- The data handed to scipy.optimize.milp: objective vector, constraint
rows, integrality mask and variable bounds. -/
structure MilpInstance where
  c : List ℚ
  rows : List MilpRow
  integrality : List Bool
  varLb : List ℚ
  varUb : List (Option ℚ)
deriving DecidableEq, Repr

/-- Row of zeros of the given length with a single value at one position
(the tolerance-band rows A_lower and A_upper of trade_minimization.py). -/
def unitCoeffRow (len pos : ℕ) (v : ℚ) : List ℚ :=
  (List.range len).map fun j => if j = pos then v else 0

/-- Row i of the trade-balance matrix A_trade of trade_minimization.py
lines 103-107: coefficient 1 on x i, -1 on t_plus i, 1 on t_minus i. -/
def tradeBalanceRow (n i : ℕ) : List ℚ :=
  (List.range (3 * n)).map fun j =>
    if j = i then 1 else if j = n + i then -1 else if j = 2 * n + i then 1 else 0

/-- The MILP instance built by trade_minimization.py lines 90-149 for the
target symbols with the given prices, current quantities and weights:
variables are the three integer blocks x, t_plus, t_minus, each bounded
below by 0 and unbounded above; the objective places 0 on the x block and
1 on both trade-leg blocks; constraints are trade balance (an equality at
the current quantity), the two tolerance-band rows and the single budget
row over the x block. -/
def tradeMinMilp (prices : List ℚ) (hqty : List ℤ) (weights : List ℚ)
    (V tol : ℚ) : MilpInstance :=
  let n := prices.length
  { c := (List.range (3 * n)).map fun j => if j < n then 0 else 1
  , rows :=
      ((List.range n).map fun i =>
        { coeffs := tradeBalanceRow n i
        , lb := some ((hqty.getD i 0 : ℤ) : ℚ)
        , ub := some ((hqty.getD i 0 : ℤ) : ℚ) })
      ++ ((List.range n).map fun i =>
        { coeffs := unitCoeffRow (3 * n) i (prices.getD i 0)
        , lb := some (max ((weights.getD i 0 - tol) * V) 0)
        , ub := none })
      ++ ((List.range n).map fun i =>
        { coeffs := unitCoeffRow (3 * n) i (prices.getD i 0)
        , lb := none
        , ub := some ((weights.getD i 0 + tol) * V) })
      ++ [{ coeffs := prices ++ List.replicate (2 * n) 0
          , lb := none
          , ub := some V }]
  , integrality := List.replicate (3 * n) true
  , varLb := List.replicate (3 * n) 0
  , varUb := List.replicate (3 * n) none }

/-- Dot product of a coefficient row with a variable assignment. -/
def dotQ (a b : List ℚ) : ℚ := ((a.zip b).map fun p => p.1 * p.2).sum

/-- Price times solved share count summed over the target symbols: the
budget row of both optimizer MILP instances applied to an x block. -/
def dotXP (data : List SymbolData) (xs : List ℤ) : ℚ :=
  ((data.zip xs).map fun p => p.1.price * (p.2 : ℚ)).sum

/-- Total dollar amount of the BUY orders of a list. -/
def buyTotal (orders : List RebalanceOrder) : ℚ :=
  ((orders.filter fun o => o.action == OrderAction.BUY).map
    RebalanceOrder.dollar_amount).sum

/-- Whether a rebalance result is the UnknownStrategy error. -/
def mentionsUnknownStrategy :
    Except RebalanceError (List RebalanceOrder) → Bool
  | .error (.unknownStrategy _) => true
  | _ => false

/-- Whether a rebalance result is a DivisionByZero error. -/
def mentionsDivisionByZero :
    Except RebalanceError (List RebalanceOrder) → Bool
  | .error (.divisionByZero _) => true
  | _ => false

/-- Positivity precondition for the simple strategy: every target symbol
whose resolved dollar delta is nonzero resolves to a strictly positive
price. -/
def noZeroPriceDelta (holdings : List Stock) (priceLookup : List (String × ℚ))
    (total : ℚ) (target : List (String × ℚ)) : Prop :=
  ∀ tp ∈ target, ∀ cv price : ℚ,
    resolveSymbol holdings priceLookup tp.1 = .ok (cv, price) →
    total * tp.2 - cv ≠ 0 → 0 < price

lemma lookupAssoc_mem {l : List (String × ℚ)} {sym : String} {v : ℚ}
    (h : lookupAssoc l sym = some v) : (sym, v) ∈ l := by
  induction l with
  | nil => simp [lookupAssoc] at h
  | cons p rest ih =>
    by_cases hp : p.1 = sym
    · simp only [lookupAssoc, if_pos hp] at h
      obtain rfl : p.2 = v := by simpa using h
      have hpe : (sym, p.2) = p := by
        obtain ⟨p1, p2⟩ := p
        simp_all
      rw [hpe]
      exact List.mem_cons_self _ _
    · simp only [lookupAssoc, if_neg hp] at h
      exact List.mem_cons_of_mem _ (ih h)

lemma findStock_mem {l : List Stock} {sym : String} {s : Stock}
    (h : findStock l sym = some s) : s ∈ l ∧ s.symbol = sym := by
  induction l with
  | nil => simp [findStock] at h
  | cons x rest ih =>
    by_cases hx : x.symbol = sym
    · simp only [findStock, if_pos hx] at h
      obtain rfl : x = s := by simpa using h
      exact ⟨List.mem_cons_self _ _, hx⟩
    · simp only [findStock, if_neg hx] at h
      exact ⟨List.mem_cons_of_mem _ (ih h).1, (ih h).2⟩

lemma resolveSymbol_eq_error {holdings : List Stock} {pl : List (String × ℚ)}
    {sym : String} {e : RebalanceError}
    (h : resolveSymbol holdings pl sym = .error e) : e = .missingPrice sym := by
  unfold resolveSymbol at h
  rcases hf : findStock holdings sym with _ | st
  · rw [hf] at h
    rcases hl : lookupAssoc pl sym with _ | v
    · rw [hl] at h
      simpa using h.symm
    · rw [hl] at h
      cases h
  · rw [hf] at h
    cases h

lemma resolveSymbol_nonneg {holdings : List Stock} {pl : List (String × ℚ)}
    {sym : String} {cv price : ℚ}
    (hh : ∀ s ∈ holdings, 0 ≤ s.quantity ∧ 0 ≤ s.current_price)
    (hp : ∀ pp ∈ pl, 0 ≤ pp.2)
    (h : resolveSymbol holdings pl sym = .ok (cv, price)) :
    0 ≤ cv ∧ 0 ≤ price := by
  unfold resolveSymbol at h
  rcases hf : findStock holdings sym with _ | st
  · rw [hf] at h
    rcases hl : lookupAssoc pl sym with _ | v
    · rw [hl] at h; cases h
    · rw [hl] at h
      obtain ⟨rfl, rfl⟩ : (0 : ℚ) = cv ∧ v = price := by simpa using h
      exact ⟨le_refl 0, hp _ (lookupAssoc_mem hl)⟩
  · rw [hf] at h
    obtain ⟨rfl, rfl⟩ : st.market_value = cv ∧ st.current_price = price := by simpa using h
    have hs := hh st (findStock_mem hf).1
    refine ⟨mul_nonneg ?_ hs.2, hs.2⟩
    exact_mod_cast hs.1

lemma targetOrder_eq_error {total : ℚ} {sym : String} {pct cv price : ℚ}
    {e : RebalanceError} (h : targetOrder total sym pct cv price = .error e) :
    e = .divisionByZero sym ∧ total * pct - cv ≠ 0 ∧ price = 0 := by
  unfold targetOrder at h
  by_cases h0 : total * pct - cv = 0
  · rw [if_pos h0] at h; cases h
  · rw [if_neg h0] at h
    by_cases hpz : price = 0
    · rw [if_pos hpz] at h
      exact ⟨by simpa using h.symm, h0, hpz⟩
    · rw [if_neg hpz] at h
      by_cases hs : truncQ (|total * pct - cv| / price) = 0
      · rw [if_pos hs] at h; cases h
      · rw [if_neg hs] at h; cases h

lemma targetOrder_symbol {total : ℚ} {sym : String} {pct cv price : ℚ}
    {o : RebalanceOrder}
    (h : targetOrder total sym pct cv price = .ok (some o)) : o.symbol = sym := by
  unfold targetOrder at h
  by_cases h0 : total * pct - cv = 0
  · rw [if_pos h0] at h; cases h
  · rw [if_neg h0] at h
    by_cases hpz : price = 0
    · rw [if_pos hpz] at h; cases h
    · rw [if_neg hpz] at h
      by_cases hs : truncQ (|total * pct - cv| / price) = 0
      · rw [if_pos hs] at h; cases h
      · rw [if_neg hs] at h
        obtain rfl : _ = o := by simpa using h
        rfl

lemma processTargets_error_cases {holdings : List Stock} {pl : List (String × ℚ)}
    {total : ℚ} {ts : List (String × ℚ)} {e : RebalanceError}
    (h : processTargets holdings pl total ts = .error e) :
    (∃ sym, e = .missingPrice sym) ∨
      ∃ tp ∈ ts, ∃ cv price : ℚ,
        resolveSymbol holdings pl tp.1 = .ok (cv, price) ∧
        total * tp.2 - cv ≠ 0 ∧ price = 0 ∧ e = .divisionByZero tp.1 := by
  induction ts with
  | nil => simp [processTargets] at h
  | cons hd tl ih =>
    obtain ⟨sym, pct⟩ := hd
    simp only [processTargets] at h
    split at h
    next e1 heq =>
      injection h with h2
      subst h2
      exact Or.inl ⟨sym, resolveSymbol_eq_error heq⟩
    next cv price heq =>
      split at h
      next e2 heq2 =>
        injection h with h2
        subst h2
        obtain ⟨he, hd0, hp0⟩ := targetOrder_eq_error heq2
        exact Or.inr ⟨(sym, pct), List.mem_cons_self _ _, cv, price, heq, hd0, hp0, he⟩
      next o heq2 =>
        split at h
        next e3 heq3 =>
          injection h with h2
          subst h2
          rcases ih heq3 with hm | ⟨tp, htp, cv2, price2, hres, hd0, hp0, he⟩
          · exact Or.inl hm
          · exact Or.inr ⟨tp, List.mem_cons_of_mem _ htp, cv2, price2, hres, hd0, hp0, he⟩
        next os heq3 =>
          split at h <;> cases h

lemma rebalanceTargetOrder_eq : rebalanceTargetOrder = targetOrder := rfl

lemma rebalanceProcessTargets_eq (holdings : List Stock) (pl : List (String × ℚ))
    (total : ℚ) (ts : List (String × ℚ)) :
    rebalanceProcessTargets holdings pl total ts = processTargets holdings pl total ts := by
  induction ts with
  | nil => rfl
  | cons hd tl ih =>
    obtain ⟨sym, pct⟩ := hd
    simp only [rebalanceProcessTargets, processTargets, rebalanceTargetOrder_eq, ih]

lemma rebalanceLiquidations_eq (target : List (String × ℚ)) (holdings : List Stock) :
    rebalanceLiquidations target holdings = liquidationOrders target holdings := by
  induction holdings with
  | nil => rfl
  | cons s rest ih => simp only [rebalanceLiquidations, liquidationOrders, ih]

lemma liquidationOrders_eq_filter_map (target : List (String × ℚ)) (holdings : List Stock) :
    liquidationOrders target holdings =
      (holdings.filter fun s =>
          decide (lookupAssoc target s.symbol = none) && decide (0 < s.quantity)).map
        (fun s =>
          { action := .SELL
          , symbol := s.symbol
          , shares := s.quantity
          , dollar_amount := s.market_value
          , target_dollars := s.market_value
          , deviation_dollars := 0 }) := by
  induction holdings with
  | nil => rfl
  | cons s rest ih =>
    by_cases hc : lookupAssoc target s.symbol = none ∧ 0 < s.quantity
    · rw [liquidationOrders, if_pos hc, List.filter_cons]
      simp [hc.1, hc.2, ih]
    · rw [liquidationOrders, if_neg hc, List.filter_cons]
      have : (decide (lookupAssoc target s.symbol = none) &&
          decide (0 < s.quantity)) = false := by
        rcases not_and_or.mp hc with h1 | h1 <;> simp [h1]
      rw [this]
      simpa using ih

lemma buyTotal_nil : buyTotal [] = 0 := rfl

lemma buyTotal_cons (o : RebalanceOrder) (os : List RebalanceOrder) :
    buyTotal (o :: os) =
      (if o.action = .BUY then o.dollar_amount else 0) + buyTotal os := by
  by_cases h : o.action = OrderAction.BUY <;>
    simp [buyTotal, List.filter_cons, h]

lemma buyTotal_append (a b : List RebalanceOrder) :
    buyTotal (a ++ b) = buyTotal a + buyTotal b := by
  simp [buyTotal, List.filter_append]

lemma buyTotal_liquidations (target : List (String × ℚ)) (holdings : List Stock) :
    buyTotal (liquidationOrders target holdings) = 0 := by
  induction holdings with
  | nil => rfl
  | cons s rest ih =>
    by_cases hc : lookupAssoc target s.symbol = none ∧ 0 < s.quantity
    · rw [liquidationOrders, if_pos hc, buyTotal_cons]
      simp [ih]
    · rw [liquidationOrders, if_neg hc]
      exact ih

lemma truncQ_eq_floor {x : ℚ} (h : 0 ≤ x) : truncQ x = ⌊x⌋ := if_pos h

/-- Per-symbol behavior of the simple strategy loop at a positive price:
no order on zero delta or zero floored share count, otherwise the order
with floor shares, the sign-determined action, and a nonnegative rounding
residue. -/
def simpleTargetOrderSpec (total target_pct current_value price : ℚ)
    (sym : String) : Prop :=
  ((total * target_pct - current_value = 0 ∨
      ⌊|total * target_pct - current_value| / price⌋ = 0) →
    targetOrder total sym target_pct current_value price = .ok none)
  ∧ (total * target_pct - current_value ≠ 0 →
      ⌊|total * target_pct - current_value| / price⌋ ≠ 0 →
      targetOrder total sym target_pct current_value price = .ok (some
        { action := if total * target_pct - current_value > 0 then .BUY else .SELL
        , symbol := sym
        , shares := ⌊|total * target_pct - current_value| / price⌋
        , dollar_amount := (⌊|total * target_pct - current_value| / price⌋ : ℚ) * price
        , target_dollars := |total * target_pct - current_value|
        , deviation_dollars := |total * target_pct - current_value| -
            (⌊|total * target_pct - current_value| / price⌋ : ℚ) * price })
      ∧ 0 ≤ |total * target_pct - current_value| -
          (⌊|total * target_pct - current_value| / price⌋ : ℚ) * price)

lemma targetOrder_pos_price (total target_pct current_value price : ℚ)
    (sym : String) (hp : 0 < price) :
    simpleTargetOrderSpec total target_pct current_value price sym := by
  have hq : 0 ≤ |total * target_pct - current_value| / price :=
    div_nonneg (abs_nonneg _) hp.le
  have htr : truncQ (|total * target_pct - current_value| / price) =
      ⌊|total * target_pct - current_value| / price⌋ := truncQ_eq_floor hq
  constructor
  · rintro (h0 | hs)
    · unfold targetOrder
      rw [if_pos h0]
    · unfold targetOrder
      by_cases h0 : total * target_pct - current_value = 0
      · rw [if_pos h0]
      · rw [if_neg h0, if_neg hp.ne.symm]
        simp [htr, hs]
  · intro h0 hs
    constructor
    · unfold targetOrder
      rw [if_neg h0, if_neg hp.ne.symm]
      simp only [htr]
      rw [if_neg hs]
    · have hfl : (⌊|total * target_pct - current_value| / price⌋ : ℚ) ≤
          |total * target_pct - current_value| / price := Int.floor_le _
      have h5 := mul_le_mul_of_nonneg_right hfl hp.le
      rw [div_mul_cancel₀ _ hp.ne.symm] at h5
      linarith

lemma targetOrder_contribution {total : ℚ} {sym : String} {pct cv price : ℚ}
    {o : RebalanceOrder}
    (hpr : 0 ≤ price) (hcv : 0 ≤ cv) (htp : 0 ≤ total * pct)
    (h : targetOrder total sym pct cv price = .ok (some o)) :
    (if o.action = .BUY then o.dollar_amount else 0) ≤ total * pct := by
  unfold targetOrder at h
  by_cases h0 : total * pct - cv = 0
  · rw [if_pos h0] at h; cases h
  · rw [if_neg h0] at h
    by_cases hpz : price = 0
    · rw [if_pos hpz] at h; cases h
    · rw [if_neg hpz] at h
      have hp : 0 < price := lt_of_le_of_ne hpr (Ne.symm hpz)
      by_cases hs : truncQ (|total * pct - cv| / price) = 0
      · rw [if_pos hs] at h; cases h
      · rw [if_neg hs] at h
        injection h with h2
        injection h2 with h3
        subst h3
        by_cases hpos : total * pct - cv > 0
        · rw [if_pos hpos]
          have habs : |total * pct - cv| = total * pct - cv := abs_of_pos hpos
          have hq2 : 0 ≤ (total * pct - cv) / price := div_nonneg hpos.le hp.le
          have hfl : (⌊(total * pct - cv) / price⌋ : ℚ) ≤ (total * pct - cv) / price :=
            Int.floor_le _
          have h5 := mul_le_mul_of_nonneg_right hfl hp.le
          rw [div_mul_cancel₀ _ hp.ne.symm] at h5
          rw [habs, truncQ_eq_floor hq2]
          show (⌊(total * pct - cv) / price⌋ : ℚ) * price ≤ total * pct
          linarith
        · rw [if_neg hpos]
          simpa using htp

lemma processTargets_buyTotal {holdings : List Stock} {pl : List (String × ℚ)}
    {total : ℚ} {ts : List (String × ℚ)} {os : List RebalanceOrder}
    (hh : ∀ s ∈ holdings, 0 ≤ s.quantity ∧ 0 ≤ s.current_price)
    (hp : ∀ pp ∈ pl, 0 ≤ pp.2)
    (ht : 0 ≤ total)
    (hw : ∀ tp ∈ ts, 0 ≤ tp.2)
    (h : processTargets holdings pl total ts = .ok os) :
    buyTotal os ≤ total * (ts.map Prod.snd).sum := by
  induction ts generalizing os with
  | nil =>
    obtain rfl : ([] : List RebalanceOrder) = os := by
      simpa [processTargets] using h
    simp [buyTotal_nil]
  | cons hd tl ih =>
    obtain ⟨sym, pct⟩ := hd
    have hpct : 0 ≤ pct := hw (sym, pct) (List.mem_cons_self _ _)
    have hwtl : ∀ tp ∈ tl, 0 ≤ tp.2 :=
      fun tp htp => hw tp (List.mem_cons_of_mem _ htp)
    simp only [processTargets] at h
    split at h
    next e heq => cases h
    next cv price heq =>
      have hcp := resolveSymbol_nonneg hh hp heq
      split at h
      next e heq2 => cases h
      next o heq2 =>
        split at h
        next e heq3 => cases h
        next os2 heq3 =>
          have hrest := ih hwtl heq3
          have hsum : total * (((sym, pct) :: tl).map Prod.snd).sum =
              total * pct + total * (tl.map Prod.snd).sum := by
            simp [mul_add]
          split at h
          next ord heq4 =>
            injection h with h2
            subst h2
            rw [buyTotal_cons, hsum]
            have hcontrib :=
              targetOrder_contribution hcp.2 hcp.1 (mul_nonneg ht hpct) heq2
            linarith
          next heq4 =>
            injection h with h2
            subst h2
            rw [hsum]
            have : 0 ≤ total * pct := mul_nonneg ht hpct
            linarith

lemma simple_buyTotal {holdings : List Stock} {target pl : List (String × ℚ)}
    {total : ℚ} {os : List RebalanceOrder}
    (hh : ∀ s ∈ holdings, 0 ≤ s.quantity ∧ 0 ≤ s.current_price)
    (hp : ∀ pp ∈ pl, 0 ≤ pp.2)
    (ht : 0 ≤ total)
    (hw : ∀ tp ∈ target, 0 ≤ tp.2)
    (hsum : (target.map Prod.snd).sum ≤ 1)
    (h : simpleCalculateOrders holdings target total pl = .ok os) :
    buyTotal os ≤ total := by
  unfold simpleCalculateOrders at h
  by_cases h0 : total = 0
  · rw [if_pos h0] at h
    injection h with h2
    subst h2
    simp [buyTotal_nil, h0]
  · rw [if_neg h0] at h
    split at h
    next e heq => cases h
    next tOrders heq =>
      injection h with h2
      subst h2
      rw [buyTotal_append, buyTotal_liquidations]
      have hb := processTargets_buyTotal hh hp ht hw heq
      have hb2 : total * (target.map Prod.snd).sum ≤ total * 1 :=
        mul_le_mul_of_nonneg_left hsum ht
      rw [mul_one] at hb2
      linarith

lemma ordersFromSolutionTM_eq : ordersFromSolutionTM = ordersFromSolutionTE := by
  funext total data xs
  induction data generalizing xs with
  | nil => cases xs <;> rfl
  | cons d rest ih =>
    cases xs with
    | nil => rfl
    | cons x xs2 =>
      simp only [ordersFromSolutionTM, ordersFromSolutionTE, ih]

lemma dotXP_cons (d : SymbolData) (data : List SymbolData) (x : ℤ) (xs : List ℤ) :
    dotXP (d :: data) (x :: xs) = d.price * (x : ℚ) + dotXP data xs := by
  simp [dotXP]

lemma ordersFromSolutionTE_buyTotal (total : ℚ) {data : List SymbolData}
    {xs : List ℤ}
    (hd : ∀ d ∈ data, 0 ≤ d.price ∧ 0 ≤ d.qty)
    (hx : ∀ x ∈ xs, 0 ≤ x) :
    buyTotal (ordersFromSolutionTE total data xs) ≤ dotXP data xs := by
  induction data generalizing xs with
  | nil => cases xs <;> simp [ordersFromSolutionTE, dotXP, buyTotal_nil]
  | cons d rest ih =>
    cases xs with
    | nil => simp [ordersFromSolutionTE, dotXP, buyTotal_nil]
    | cons x xs2 =>
      have hd0 := hd d (List.mem_cons_self _ _)
      have hx0 : (0 : ℚ) ≤ (x : ℚ) := by
        exact_mod_cast hx x (List.mem_cons_self _ _)
      have hpx : 0 ≤ d.price * (x : ℚ) := mul_nonneg hd0.1 hx0
      have hrest := ih (fun d2 h2 => hd d2 (List.mem_cons_of_mem _ h2))
        (fun x2 h2 => hx x2 (List.mem_cons_of_mem _ h2))
      rw [dotXP_cons]
      by_cases hdel : x - d.qty = 0
      · rw [ordersFromSolutionTE, if_pos hdel]
        linarith
      · rw [ordersFromSolutionTE, if_neg hdel, buyTotal_cons]
        by_cases hpos : x - d.qty > 0
        · rw [if_pos hpos]
          show ((|x - d.qty| : ℤ) : ℚ) * d.price + _ ≤ _
          have habs : |x - d.qty| = x - d.qty := abs_of_pos hpos
          have hqty : (0 : ℚ) ≤ (d.qty : ℚ) := by exact_mod_cast hd0.2
          have hle : ((x - d.qty : ℤ) : ℚ) * d.price ≤ (x : ℚ) * d.price := by
            apply mul_le_mul_of_nonneg_right _ hd0.1
            push_cast
            linarith
          rw [habs]
          calc ((x - d.qty : ℤ) : ℚ) * d.price + buyTotal (ordersFromSolutionTE total rest xs2)
              ≤ (x : ℚ) * d.price + dotXP rest xs2 := by linarith
            _ = d.price * (x : ℚ) + dotXP rest xs2 := by ring
        · rw [if_neg hpos]
          show (if OrderAction.SELL = OrderAction.BUY then
              ((|x - d.qty| : ℤ) : ℚ) * d.price else 0) +
            buyTotal (ordersFromSolutionTE total rest xs2) ≤
              d.price * (x : ℚ) + dotXP rest xs2
          rw [if_neg (by decide : OrderAction.SELL ≠ OrderAction.BUY)]
          linarith

lemma collectData_nonneg {holdings : List Stock} {pl : List (String × ℚ)}
    {ts : List (String × ℚ)} {data : List SymbolData}
    (hh : ∀ s ∈ holdings, 0 ≤ s.quantity ∧ 0 ≤ s.current_price)
    (hp : ∀ pp ∈ pl, 0 ≤ pp.2)
    (h : collectData holdings pl ts = .ok data) :
    ∀ d ∈ data, 0 ≤ d.price ∧ 0 ≤ d.qty := by
  induction ts generalizing data with
  | nil =>
    obtain rfl : ([] : List SymbolData) = data := by simpa [collectData] using h
    intro d hdm
    cases hdm
  | cons hd tl ih =>
    obtain ⟨sym, w⟩ := hd
    simp only [collectData] at h
    split at h
    next st heq =>
      split at h
      next e heq2 => cases h
      next others heq2 =>
        injection h with h2
        subst h2
        intro d hdm
        rcases List.mem_cons.mp hdm with rfl | hdm2
        · have hs := hh st (findStock_mem heq).1
          exact ⟨hs.2, hs.1⟩
        · exact ih heq2 d hdm2
    next heq =>
      split at h
      next price heq1 =>
        split at h
        next e heq2 => cases h
        next others heq2 =>
          injection h with h2
          subst h2
          intro d hdm
          rcases List.mem_cons.mp hdm with rfl | hdm2
          · exact ⟨hp _ (lookupAssoc_mem heq1), le_refl 0⟩
          · exact ih heq2 d hdm2
      next heq1 => cases h

lemma collectData_symbols {holdings : List Stock} {pl : List (String × ℚ)}
    {ts : List (String × ℚ)} {data : List SymbolData}
    (h : collectData holdings pl ts = .ok data) :
    data.map SymbolData.symbol = ts.map Prod.fst := by
  induction ts generalizing data with
  | nil =>
    obtain rfl : ([] : List SymbolData) = data := by simpa [collectData] using h
    rfl
  | cons hd tl ih =>
    obtain ⟨sym, w⟩ := hd
    simp only [collectData] at h
    split at h
    next st heq =>
      split at h
      next e heq2 => cases h
      next others heq2 =>
        injection h with h2
        subst h2
        simp [ih heq2]
    next heq =>
      split at h
      next price heq1 =>
        split at h
        next e heq2 => cases h
        next others heq2 =>
          injection h with h2
          subst h2
          simp [ih heq2]
      next heq1 => cases h

lemma ordersFromSolutionTE_symbols (total : ℚ) {data : List SymbolData}
    {xs : List ℤ} {o : RebalanceOrder}
    (h : o ∈ ordersFromSolutionTE total data xs) :
    o.symbol ∈ data.map SymbolData.symbol := by
  induction data generalizing xs with
  | nil => cases xs <;> simp [ordersFromSolutionTE] at h
  | cons d rest ih =>
    cases xs with
    | nil => simp [ordersFromSolutionTE] at h
    | cons x xs2 =>
      rw [ordersFromSolutionTE] at h
      by_cases hdel : x - d.qty = 0
      · rw [if_pos hdel] at h
        exact List.mem_cons_of_mem _ (ih h)
      · rw [if_neg hdel] at h
        rcases List.mem_cons.mp h with rfl | h2
        · exact List.mem_cons_self _ _
        · exact List.mem_cons_of_mem _ (ih h2)

lemma processTargets_symbols {holdings : List Stock} {pl : List (String × ℚ)}
    {total : ℚ} {ts : List (String × ℚ)} {os : List RebalanceOrder}
    (h : processTargets holdings pl total ts = .ok os) :
    ∀ o ∈ os, o.symbol ∈ ts.map Prod.fst := by
  induction ts generalizing os with
  | nil =>
    obtain rfl : ([] : List RebalanceOrder) = os := by simpa [processTargets] using h
    intro o ho
    cases ho
  | cons hd tl ih =>
    obtain ⟨sym, pct⟩ := hd
    simp only [processTargets] at h
    split at h
    next e heq => cases h
    next cv price heq =>
      split at h
      next e heq2 => cases h
      next o2 heq2 =>
        split at h
        next e heq3 => cases h
        next os2 heq3 =>
          split at h
          next ord =>
            injection h with h2
            subst h2
            intro o ho
            rcases List.mem_cons.mp ho with rfl | ho2
            · rw [targetOrder_symbol heq2]
              simp
            · exact List.mem_cons_of_mem _ (ih heq3 o ho2)
          next =>
            injection h with h2
            subst h2
            intro o ho
            exact List.mem_cons_of_mem _ (ih heq3 o ho)

lemma dotQ_append {a ys : List ℚ} (b zs : List ℚ) (h : a.length = ys.length) :
    dotQ (a ++ b) (ys ++ zs) = dotQ a ys + dotQ b zs := by
  unfold dotQ
  rw [List.zip_append h, List.map_append, List.sum_append]

lemma dotQ_replicate_zero (n : ℕ) (ys : List ℚ) :
    dotQ (List.replicate n 0) ys = 0 := by
  induction n generalizing ys with
  | zero => simp [dotQ]
  | succ m ih =>
    cases ys with
    | nil => simp [dotQ]
    | cons y ys2 =>
      rw [List.replicate_succ]
      unfold dotQ
      rw [List.zip_cons_cons, List.map_cons, List.sum_cons]
      have := ih ys2
      unfold dotQ at this
      rw [this]
      ring

lemma dotQ_replicate_one {n : ℕ} {ys : List ℚ} (h : ys.length = n) :
    dotQ (List.replicate n 1) ys = ys.sum := by
  induction n generalizing ys with
  | zero =>
    rw [List.length_eq_zero] at h
    subst h
    simp [dotQ]
  | succ m ih =>
    cases ys with
    | nil => simp at h
    | cons y ys2 =>
      rw [List.replicate_succ]
      unfold dotQ
      rw [List.zip_cons_cons, List.map_cons, List.sum_cons]
      have h2 : ys2.length = m := by simpa using h
      have := ih h2
      unfold dotQ at this
      rw [this, List.sum_cons]
      ring

lemma tradeMin_c_shape (n : ℕ) :
    (List.range (3 * n)).map (fun j => if j < n then (0 : ℚ) else 1) =
      List.replicate n 0 ++ List.replicate (2 * n) 1 := by
  apply List.ext_getElem
  · simp
    omega
  · intro i h1 h2
    simp only [List.getElem_map, List.getElem_range]
    by_cases hi : i < n
    · rw [if_pos hi, List.getElem_append_left (by simpa using hi)]
      simp
    · have hlen : (List.replicate n (0 : ℚ)).length ≤ i := by simpa using Nat.le_of_not_lt hi
      rw [if_neg hi, List.getElem_append_right hlen]
      simp

lemma tradeMinMilp_c (prices : List ℚ) (hqty : List ℤ) (weights : List ℚ)
    (V tol : ℚ) :
    (tradeMinMilp prices hqty weights V tol).c =
      List.replicate prices.length (0 : ℚ) ++
        List.replicate (2 * prices.length) 1 := by
  simp only [tradeMinMilp]
  exact tradeMin_c_shape _

lemma simple_decomp {holdings : List Stock} {target pl : List (String × ℚ)}
    {total : ℚ} {os : List RebalanceOrder} (h0 : total ≠ 0)
    (h : simpleCalculateOrders holdings target total pl = .ok os) :
    ∃ tOrders, os = tOrders ++ liquidationOrders target holdings ∧
      ∀ o ∈ tOrders, o.symbol ∈ target.map Prod.fst := by
  unfold simpleCalculateOrders at h
  rw [if_neg h0] at h
  split at h
  next e heq => cases h
  next tOrders heq =>
    injection h with h2
    subst h2
    exact ⟨tOrders, rfl, processTargets_symbols heq⟩

lemma checkWeights_cases (l : List (String × ℚ)) :
    checkWeights l = none ∨ checkWeights l = some .invalidAllocation := by
  induction l with
  | nil => exact Or.inl rfl
  | cons p rest ih =>
    obtain ⟨sym, pct⟩ := p
    by_cases hc : pct < 0 ∨ pct > 1
    · exact Or.inr (by rw [checkWeights, if_pos hc])
    · rw [checkWeights, if_neg hc]
      exact ih

lemma checkWeights_none_iff (l : List (String × ℚ)) :
    checkWeights l = none ↔ ∀ tp ∈ l, ¬(tp.2 < 0 ∨ 1 < tp.2) := by
  induction l with
  | nil => simp [checkWeights]
  | cons p rest ih =>
    obtain ⟨sym, pct⟩ := p
    by_cases hc : pct < 0 ∨ pct > 1
    · rw [checkWeights, if_pos hc]
      constructor
      · intro h
        exact absurd h (by simp)
      · intro h
        exact absurd hc (h (sym, pct) (List.mem_cons_self _ _))
    · rw [checkWeights, if_neg hc]
      rw [ih]
      constructor
      · intro h tp htp
        rcases List.mem_cons.mp htp with rfl | htp2
        · simpa using hc
        · exact h tp htp2
      · intro h tp htp
        exact h tp (List.mem_cons_of_mem _ htp)

lemma checkWeights_some_exists {l : List (String × ℚ)} {e : RebalanceError}
    (h : checkWeights l = some e) : ∃ tp ∈ l, tp.2 < 0 ∨ 1 < tp.2 := by
  by_contra hno
  rw [(checkWeights_none_iff l).mpr (by push_neg at hno ⊢; exact fun tp htp => hno tp htp)] at h
  cases h

/-- C3 counterexample: on holdings CASH 1 at 1000, target META 1.0 and
price lookup META 580, the simple strategy does not return the single
BUY 1 META order the claim states: the CASH holding is absent from the
target and gets a liquidation SELL appended as a second order. -/
theorem cash_scenario_not_single_order :
    simpleCalculateOrders [⟨"CASH", 1, 1000⟩] [("META", 1)] 1000 [("META", 580)] ≠
      .ok [⟨.BUY, "META", 1, 580, 1000, 420⟩] := by
  have h : simpleCalculateOrders [⟨"CASH", 1, 1000⟩] [("META", 1)] 1000
      [("META", 580)] =
      .ok [⟨.BUY, "META", 1, 580, 1000, 420⟩, ⟨.SELL, "CASH", 1, 1000, 1000, 0⟩] := by
    simp [simpleCalculateOrders, processTargets, resolveSymbol, targetOrder, truncQ,
      liquidationOrders, findStock, lookupAssoc, Stock.market_value]
    norm_num
  rw [h]
  simp

/-- C3 (amended): on holdings CASH 1 at 1000, target META 1.0 and price
lookup META 580, the simple strategy returns exactly two orders: BUY 1 META
with dollar amount 580, target dollars 1000 and deviation dollars 420,
followed by the liquidation SELL 1 CASH with dollar amount and target
dollars 1000 and deviation dollars 0. -/
theorem cash_scenario_two_orders :
    simpleCalculateOrders [⟨"CASH", 1, 1000⟩] [("META", 1)] 1000 [("META", 580)] =
      .ok [⟨.BUY, "META", 1, 580, 1000, 420⟩, ⟨.SELL, "CASH", 1, 1000, 1000, 0⟩] := by
  simp [simpleCalculateOrders, processTargets, resolveSymbol, targetOrder, truncQ,
    liquidationOrders, findStock, lookupAssoc, Stock.market_value]
  norm_num

/-- C7: rebalance fails with NoTargetAllocation whenever no target
allocation is set, before any other check; with a target set and total
value 0 it returns the empty order list without raising. -/
theorem rebalance_empty_target_and_zero_total :
    ∀ (p : Portfolio) (pl : List (String × ℚ)),
      (p.target_allocation = [] →
        portfolioRebalance p pl = .error .noTargetAllocation)
      ∧ (p.target_allocation ≠ [] → totalValue p = 0 →
        portfolioRebalance p pl = .ok []) := by
  intro p pl
  constructor
  · intro h
    unfold portfolioRebalance
    rw [if_pos h]
  · intro h ht
    unfold portfolioRebalance
    rw [if_neg h, if_pos ht]

/-- C7 witness: a portfolio with holdings but no target raises
NoTargetAllocation; a portfolio with a target and zero total value yields
the empty order list. -/
theorem rebalance_empty_target_and_zero_total_witness :
    (portfolioRebalance ⟨[⟨"AAPL", 1, 5⟩], []⟩ [] = .error .noTargetAllocation)
    ∧ ([("AAPL", (1 : ℚ))] ≠ ([] : List (String × ℚ)))
    ∧ totalValue ⟨[⟨"AAPL", 0, 5⟩], [("AAPL", 1)]⟩ = 0
    ∧ portfolioRebalance ⟨[⟨"AAPL", 0, 5⟩], [("AAPL", 1)]⟩ [] = .ok [] :=
  ⟨(rebalance_empty_target_and_zero_total _ _).1 rfl,
   by simp,
   by simp [totalValue, Stock.market_value],
   (rebalance_empty_target_and_zero_total _ _).2 (by simp)
     (by simp [totalValue, Stock.market_value])⟩

/-- C9: with a non-empty target allocation, Portfolio.rebalance returns
exactly the list the simple strategy computes on the portfolio holdings,
target allocation, total value and price lookup: the inline rebalance loop
and SimpleRebalanceStrategy.calculate_orders are the same function. -/
theorem rebalance_refines_simple (p : Portfolio) (pl : List (String × ℚ))
    (h : p.target_allocation ≠ []) :
    portfolioRebalance p pl =
      simpleCalculateOrders p.holdings p.target_allocation (totalValue p) pl := by
  unfold portfolioRebalance simpleCalculateOrders
  rw [if_neg h, rebalanceProcessTargets_eq, rebalanceLiquidations_eq]

/-- C9 witness: the refinement applied to a concrete one-stock portfolio. -/
theorem rebalance_refines_simple_witness :
    ([("A", (1 : ℚ))] ≠ ([] : List (String × ℚ)))
    ∧ portfolioRebalance ⟨[⟨"A", 2, 5⟩], [("A", 1)]⟩ [] =
        simpleCalculateOrders [⟨"A", 2, 5⟩] [("A", 1)]
          (totalValue ⟨[⟨"A", 2, 5⟩], [("A", 1)]⟩) [] :=
  ⟨by simp, rebalance_refines_simple ⟨[⟨"A", 2, 5⟩], [("A", 1)]⟩ [] (by simp)⟩

/-- C2 (code bug): Portfolio.rebalance takes no strategy argument at all:
it never dispatches on a strategy name and can never produce the
UnknownStrategy error; on the test suite's already-balanced portfolio it
returns the empty order list.  The test suite
(test_invalid_strategy_raises, the strategy-integration tests) and cli.py
call rebalance with strategy and extra_cash keyword arguments and expect
an Unknown strategy ValueError for a bad name, which this signature cannot
raise. -/
theorem rebalance_never_unknown_strategy :
    (∀ (p : Portfolio) (pl : List (String × ℚ)),
      mentionsUnknownStrategy (portfolioRebalance p pl) = false)
    ∧ portfolioRebalance ⟨[⟨"AAPL", 10, 100⟩], [("AAPL", 1)]⟩ [] = .ok [] := by
  constructor
  · intro p pl
    unfold portfolioRebalance
    by_cases h : p.target_allocation = []
    · rw [if_pos h]
      rfl
    · rw [if_neg h]
      by_cases ht : totalValue p = 0
      · rw [if_pos ht]
        rfl
      · rw [if_neg ht, rebalanceProcessTargets_eq]
        rcases hres : processTargets p.holdings pl (totalValue p) p.target_allocation
          with e | tOrders
        · rcases processTargets_error_cases hres with ⟨sym, rfl⟩ |
            ⟨tp, _, cv, price, _, _, _, rfl⟩ <;> rfl
        · rfl
  · simp [portfolioRebalance, totalValue, rebalanceProcessTargets, resolveSymbol,
      rebalanceTargetOrder, truncQ, rebalanceLiquidations, findStock, lookupAssoc,
      Stock.market_value]

/-- C8: set_target_allocation raises InvalidAllocation exactly when some
weight lies outside the closed interval from 0 to 1 or the weight sum
deviates from 1 by more than 1/10000, and otherwise stores the allocation;
in particular a map summing to 1.5 and a map containing the weight -0.1
are both rejected. -/
theorem set_target_allocation_validation :
    (∀ alloc : List (String × ℚ),
      (setTargetAllocation alloc = .error .invalidAllocation ↔
        (∃ tp ∈ alloc, tp.2 < 0 ∨ 1 < tp.2) ∨
          1 / 10000 < |(alloc.map Prod.snd).sum - 1|)
      ∧ (setTargetAllocation alloc ≠ .error .invalidAllocation →
          setTargetAllocation alloc = .ok alloc))
    ∧ setTargetAllocation [("AAPL", 1/2), ("META", 1)] = .error .invalidAllocation
    ∧ setTargetAllocation [("AAPL", -1/10), ("META", 11/10)] =
        .error .invalidAllocation := by
  refine ⟨fun alloc => ?_, ?_, ?_⟩
  · rcases checkWeights_cases alloc with hc | hc
    · have hall := (checkWeights_none_iff alloc).mp hc
      unfold setTargetAllocation
      rw [hc]
      by_cases hs : |(alloc.map Prod.snd).sum - 1| > 1 / 10000
      · rw [if_pos hs]
        exact ⟨⟨fun _ => Or.inr hs, fun _ => rfl⟩, fun hne => absurd rfl hne⟩
      · rw [if_neg hs]
        constructor
        · constructor
          · intro h
            simp at h
          · rintro (⟨tp, htp, hv⟩ | hgt)
            · exact absurd hv (hall tp htp)
            · exact absurd hgt hs
        · intro _
          rfl
    · unfold setTargetAllocation
      rw [hc]
      exact ⟨⟨fun _ => Or.inl (checkWeights_some_exists hc), fun _ => rfl⟩,
        fun hne => absurd rfl hne⟩
  · simp [setTargetAllocation, checkWeights]
    norm_num
    intro h
    rw [abs_of_nonneg (by norm_num)] at h
    norm_num at h
  · simp [setTargetAllocation, checkWeights]
    norm_num

/-- C8 witness: a singleton allocation with weight 1 passes validation and
is stored unchanged. -/
theorem set_target_allocation_validation_witness :
    setTargetAllocation [("A", (1 : ℚ))] ≠ .error .invalidAllocation ∧
      setTargetAllocation [("A", (1 : ℚ))] = .ok [("A", 1)] := by
  have hne : setTargetAllocation [("A", (1 : ℚ))] ≠ .error .invalidAllocation := by
    intro hc
    rcases (set_target_allocation_validation.1 [("A", 1)]).1.mp hc with
      ⟨tp, htp, hv⟩ | hgt
    · simp at htp
      rw [htp] at hv
      norm_num at hv
    · simp at hgt
      exact absurd hgt (by norm_num)
  exact ⟨hne, (set_target_allocation_validation.1 [("A", 1)]).2 hne⟩

/-- C4: for a target symbol resolved at a strictly positive price, with
delta equal to total value times weight minus current value, the simple
strategy loop emits no order when delta is 0 or when the floored share
count is 0, and otherwise emits exactly the order with floor shares, BUY
for positive delta and SELL for negative, dollar amount shares times
price, target dollars the absolute delta, and a deviation equal to the
rounding residue, which is never negative. -/
theorem simple_per_symbol_emission (total target_pct current_value price : ℚ)
    (sym : String) (hp : 0 < price) :
    simpleTargetOrderSpec total target_pct current_value price sym :=
  targetOrder_pos_price total target_pct current_value price sym hp

/-- C4 witness: the CASH-to-META numbers at price 580. -/
theorem simple_per_symbol_emission_witness :
    (0 : ℚ) < 580 ∧ simpleTargetOrderSpec 1000 1 0 580 "META" :=
  ⟨by norm_num, simple_per_symbol_emission 1000 1 0 580 "META" (by norm_num)⟩

/-- C10: the simple strategy divides the absolute delta by the resolved
price with no zero guard.  Under the precondition that every target symbol
with a nonzero dollar delta resolves to a strictly positive price the
strategy never raises the division error; and on the concrete input with
target symbol ZERO priced 0 and a nonzero delta, both the strategy and
Portfolio.rebalance end in the DivisionByZero error instead of an order
list. -/
theorem simple_division_by_zero_guard :
    (∀ (holdings : List Stock) (target pl : List (String × ℚ)) (total : ℚ),
      noZeroPriceDelta holdings pl total target →
      mentionsDivisionByZero (simpleCalculateOrders holdings target total pl) = false)
    ∧ simpleCalculateOrders [⟨"CASH", 1, 1000⟩] [("ZERO", 1)] 1000 [("ZERO", 0)] =
        .error (.divisionByZero "ZERO")
    ∧ portfolioRebalance ⟨[⟨"CASH", 1, 1000⟩], [("ZERO", 1)]⟩ [("ZERO", 0)] =
        .error (.divisionByZero "ZERO") := by
  refine ⟨?_, ?_, ?_⟩
  · intro holdings target pl total hpre
    unfold simpleCalculateOrders
    by_cases h0 : total = 0
    · rw [if_pos h0]
      rfl
    · rw [if_neg h0]
      rcases hres : processTargets holdings pl total target with e | t
      · rcases processTargets_error_cases hres with ⟨sym, rfl⟩ |
          ⟨tp, htp, cv, price, hr, hd, hpz, rfl⟩
        · rfl
        · have hpos := hpre tp htp cv price hr hd
          rw [hpz] at hpos
          exact absurd hpos (lt_irrefl 0)
      · rfl
  · simp [simpleCalculateOrders, processTargets, resolveSymbol, targetOrder, truncQ,
      liquidationOrders, findStock, lookupAssoc, Stock.market_value]
  · simp [portfolioRebalance, totalValue, rebalanceProcessTargets, resolveSymbol,
      rebalanceTargetOrder, truncQ, rebalanceLiquidations, findStock, lookupAssoc,
      Stock.market_value]

/-- C10 witness: a held single-stock target at price 100 satisfies the
positive-price precondition, and the strategy raises no division error. -/
theorem simple_division_by_zero_guard_witness :
    noZeroPriceDelta [⟨"A", 1, 100⟩] [] 100 [("A", 1)] ∧
      mentionsDivisionByZero
        (simpleCalculateOrders [⟨"A", 1, 100⟩] [("A", 1)] 100 []) = false := by
  have hpre : noZeroPriceDelta [⟨"A", 1, 100⟩] [] 100 [("A", 1)] := by
    intro tp htp cv price hres hd
    simp only [List.mem_singleton] at htp
    rw [htp] at hres
    simp [resolveSymbol, findStock, Stock.market_value] at hres
    rw [← hres.2]
    norm_num
  exact ⟨hpre, simple_division_by_zero_guard.1 _ _ _ _ hpre⟩

/-- C5: no strategy overspends the budget.  The code has no extraCash
parameter anywhere, so the budget is exactly the total value.  For the
simple strategy this holds whenever holdings quantities and prices, lookup
prices, the total and the target weights are nonnegative and the weights
sum to at most 1.  For the two MILP strategies the external solver is
abstracted: for every nonnegative integral solution that satisfies the
instance's budget row (price dot shares at most total), the orders
extracted from it (plus liquidations) have BUY dollar amounts summing to
at most the total; the fallback path is the simple strategy and is covered
by the same bound. -/
theorem strategies_never_overspend :
    (∀ (holdings : List Stock) (target pl : List (String × ℚ)) (total : ℚ)
        (os : List RebalanceOrder),
      (∀ s ∈ holdings, 0 ≤ s.quantity ∧ 0 ≤ s.current_price) →
      (∀ pp ∈ pl, 0 ≤ pp.2) →
      0 ≤ total →
      (∀ tp ∈ target, 0 ≤ tp.2) →
      (target.map Prod.snd).sum ≤ 1 →
      simpleCalculateOrders holdings target total pl = .ok os →
      buyTotal os ≤ total)
    ∧ (∀ (holdings : List Stock) (target pl : List (String × ℚ)) (total : ℚ)
        (solver : Option (List ℤ)) (os : List RebalanceOrder),
      (∀ s ∈ holdings, 0 ≤ s.quantity ∧ 0 ≤ s.current_price) →
      (∀ pp ∈ pl, 0 ≤ pp.2) →
      0 ≤ total →
      (∀ tp ∈ target, 0 ≤ tp.2) →
      (target.map Prod.snd).sum ≤ 1 →
      (∀ xs, solver = some xs →
        (∀ x ∈ xs, 0 ≤ x) ∧
        ∀ data, collectData holdings pl target = .ok data → dotXP data xs ≤ total) →
      trackingErrorCalculateOrders holdings target total pl solver = .ok os →
      buyTotal os ≤ total)
    ∧ (∀ (tolerance : ℚ) (holdings : List Stock) (target pl : List (String × ℚ))
        (total : ℚ) (solver : Option (List ℤ)) (os : List RebalanceOrder),
      (∀ s ∈ holdings, 0 ≤ s.quantity ∧ 0 ≤ s.current_price) →
      (∀ pp ∈ pl, 0 ≤ pp.2) →
      0 ≤ total →
      (∀ tp ∈ target, 0 ≤ tp.2) →
      (target.map Prod.snd).sum ≤ 1 →
      (∀ xs, solver = some xs →
        (∀ x ∈ xs, 0 ≤ x) ∧
        ∀ data, collectData holdings pl target = .ok data → dotXP data xs ≤ total) →
      tradeMinCalculateOrders tolerance holdings target total pl solver = .ok os →
      buyTotal os ≤ total) := by
  refine ⟨?_, ?_, ?_⟩
  · intro holdings target pl total os hh hp ht hw hsum h
    exact simple_buyTotal hh hp ht hw hsum h
  · intro holdings target pl total solver os hh hp ht hw hsum hfeas h
    unfold trackingErrorCalculateOrders at h
    by_cases h0 : total = 0
    · rw [if_pos h0] at h
      injection h with h2
      subst h2
      simpa [buyTotal_nil] using ht
    · rw [if_neg h0] at h
      split at h
      next e heq => cases h
      next data heq =>
        cases solver with
        | none => exact simple_buyTotal hh hp ht hw hsum h
        | some xs =>
          injection h with h2
          subst h2
          rw [buyTotal_append, buyTotal_liquidations]
          have hfx := hfeas xs rfl
          have hd := collectData_nonneg hh hp heq
          have hb := ordersFromSolutionTE_buyTotal total hd hfx.1
          have hdot := hfx.2 data heq
          linarith
  · intro tolerance holdings target pl total solver os hh hp ht hw hsum hfeas h
    unfold tradeMinCalculateOrders at h
    by_cases h0 : total = 0
    · rw [if_pos h0] at h
      injection h with h2
      subst h2
      simpa [buyTotal_nil] using ht
    · rw [if_neg h0] at h
      split at h
      next e heq => cases h
      next data heq =>
        cases solver with
        | none => exact simple_buyTotal hh hp ht hw hsum h
        | some xs =>
          injection h with h2
          subst h2
          rw [ordersFromSolutionTM_eq, buyTotal_append, buyTotal_liquidations]
          have hfx := hfeas xs rfl
          have hd := collectData_nonneg hh hp heq
          have hb := ordersFromSolutionTE_buyTotal total hd hfx.1
          have hdot := hfx.2 data heq
          linarith

/-- C5 witness: the budget bound applied at concrete inputs for each of
the three strategies (simple on a balanced one-stock portfolio, the two
MILP extractions on a two-stock portfolio with the integral solution
six-and-four). -/
theorem strategies_never_overspend_witness :
    buyTotal [] ≤ (100 : ℚ)
    ∧ buyTotal [⟨.BUY, "AAPL", 1, 200, 200, 0⟩, ⟨.SELL, "META", 1, 200, 200, 0⟩] ≤
        (2000 : ℚ)
    ∧ buyTotal [⟨.BUY, "AAPL", 1, 200, 200, 0⟩, ⟨.SELL, "META", 1, 200, 200, 0⟩] ≤
        (2000 : ℚ) := by
  have hh1 : ∀ s ∈ [(⟨"A", 1, 100⟩ : Stock)], 0 ≤ s.quantity ∧ 0 ≤ s.current_price := by
    intro s hs
    simp only [List.mem_singleton] at hs
    rw [hs]
    norm_num
  have hw1 : ∀ tp ∈ [("A", (1 : ℚ))], 0 ≤ tp.2 := by
    intro tp htp
    simp only [List.mem_singleton] at htp
    rw [htp]
    norm_num
  have hs1 : simpleCalculateOrders [⟨"A", 1, 100⟩] [("A", 1)] 100 [] = .ok [] := by
    simp [simpleCalculateOrders, processTargets, resolveSymbol, targetOrder, truncQ,
      liquidationOrders, findStock, lookupAssoc, Stock.market_value]
  have hh2 : ∀ s ∈ [(⟨"AAPL", 5, 200⟩ : Stock), ⟨"META", 5, 200⟩],
      0 ≤ s.quantity ∧ 0 ≤ s.current_price := by
    intro s hs
    rcases List.mem_cons.mp hs with rfl | hs2
    · norm_num
    · simp only [List.mem_singleton] at hs2
      rw [hs2]
      norm_num
  have hw2 : ∀ tp ∈ [("AAPL", (3 : ℚ)/5), ("META", (2 : ℚ)/5)], 0 ≤ tp.2 := by
    intro tp htp
    rcases List.mem_cons.mp htp with rfl | htp2
    · norm_num
    · simp only [List.mem_singleton] at htp2
      rw [htp2]
      norm_num
  have hsum2 : (([("AAPL", (3 : ℚ)/5), ("META", (2 : ℚ)/5)]).map Prod.snd).sum ≤ 1 := by
    norm_num
  have hfeas : ∀ xs : List ℤ, (some [6, 4] : Option (List ℤ)) = some xs →
      (∀ x ∈ xs, 0 ≤ x) ∧
      ∀ data, collectData [⟨"AAPL", 5, 200⟩, ⟨"META", 5, 200⟩] []
          [("AAPL", (3 : ℚ)/5), ("META", (2 : ℚ)/5)] = .ok data →
        dotXP data xs ≤ 2000 := by
    intro xs hxs
    injection hxs with hxs2
    subst hxs2
    constructor
    · intro x hx
      rcases List.mem_cons.mp hx with rfl | hx2
      · norm_num
      · simp only [List.mem_singleton] at hx2
        rw [hx2]
        norm_num
    · intro data hdata
      have hval : collectData [(⟨"AAPL", 5, 200⟩ : Stock), ⟨"META", 5, 200⟩] []
          [("AAPL", (3 : ℚ)/5), ("META", (2 : ℚ)/5)] =
          .ok [⟨"AAPL", 200, 5, 3/5⟩, ⟨"META", 200, 5, 2/5⟩] := by
        simp [collectData, findStock, lookupAssoc]
      rw [hval] at hdata
      injection hdata with hdata2
      rw [← hdata2]
      simp [dotXP]
      norm_num
  have hte : trackingErrorCalculateOrders [⟨"AAPL", 5, 200⟩, ⟨"META", 5, 200⟩]
      [("AAPL", (3 : ℚ)/5), ("META", (2 : ℚ)/5)] 2000 [] (some [6, 4]) =
      .ok [⟨.BUY, "AAPL", 1, 200, 200, 0⟩, ⟨.SELL, "META", 1, 200, 200, 0⟩] := by
    simp [trackingErrorCalculateOrders, collectData, ordersFromSolutionTE,
      liquidationOrders, findStock, lookupAssoc, Stock.market_value]
    norm_num
  have htm : tradeMinCalculateOrders (1/50) [⟨"AAPL", 5, 200⟩, ⟨"META", 5, 200⟩]
      [("AAPL", (3 : ℚ)/5), ("META", (2 : ℚ)/5)] 2000 [] (some [6, 4]) =
      .ok [⟨.BUY, "AAPL", 1, 200, 200, 0⟩, ⟨.SELL, "META", 1, 200, 200, 0⟩] := by
    simp [tradeMinCalculateOrders, collectData, ordersFromSolutionTM,
      liquidationOrders, findStock, lookupAssoc, Stock.market_value]
    norm_num
  refine ⟨?_, ?_, ?_⟩
  · exact strategies_never_overspend.1 [⟨"A", 1, 100⟩] [("A", 1)] [] 100 []
      hh1 (by intro pp hpp; cases hpp) (by norm_num) hw1 (by norm_num) hs1
  · exact strategies_never_overspend.2.1 [⟨"AAPL", 5, 200⟩, ⟨"META", 5, 200⟩]
      [("AAPL", 3/5), ("META", 2/5)] [] 2000 (some [6, 4]) _
      hh2 (by intro pp hpp; cases hpp) (by norm_num) hw2 hsum2 hfeas hte
  · exact strategies_never_overspend.2.2 (1/50) [⟨"AAPL", 5, 200⟩, ⟨"META", 5, 200⟩]
      [("AAPL", 3/5), ("META", 2/5)] [] 2000 (some [6, 4]) _
      hh2 (by intro pp hpp; cases hpp) (by norm_num) hw2 hsum2 hfeas htm

/-- C6 counterexample: holdings GOOG 5 shares at price 0 (total value 0)
with target allocation AAPL 1.0.  GOOG is held with quantity greater than
0 and absent from the target, yet every strategy (and rebalance) returns
the empty order list with no SELL GOOG liquidation: the zero-total
short-circuit runs before the liquidation loop, so the claim without a
nonzero-total proviso is false on the code. -/
theorem liquidation_skipped_on_zero_total :
    simpleCalculateOrders [⟨"GOOG", 5, 0⟩] [("AAPL", 1)] 0 [("AAPL", 10)] = .ok []
    ∧ trackingErrorCalculateOrders [⟨"GOOG", 5, 0⟩] [("AAPL", 1)] 0 [("AAPL", 10)]
        (some [0]) = .ok []
    ∧ tradeMinCalculateOrders (1/50) [⟨"GOOG", 5, 0⟩] [("AAPL", 1)] 0 [("AAPL", 10)]
        (some [0]) = .ok []
    ∧ portfolioRebalance ⟨[⟨"GOOG", 5, 0⟩], [("AAPL", 1)]⟩ [("AAPL", 10)] = .ok [] := by
  refine ⟨?_, ?_, ?_, ?_⟩ <;>
    simp [simpleCalculateOrders, trackingErrorCalculateOrders,
      tradeMinCalculateOrders, portfolioRebalance, totalValue, Stock.market_value]

/-- C6 (amended): provided the total value is nonzero, every strategy's
successful result decomposes as target-driven orders, whose symbols all
come from the target allocation, followed by exactly the liquidation list:
one SELL order per held entry absent from the target with positive
quantity, in holdings iteration order, with shares the full quantity,
dollar amount and target dollars the market value, and deviation 0.  The
MILP strategies are covered both on the solver path (any solution vector)
and on the fallback path. -/
theorem liquidations_appended_all_strategies :
    (∀ (holdings : List Stock) (target pl : List (String × ℚ)) (total : ℚ)
        (os : List RebalanceOrder), total ≠ 0 →
      simpleCalculateOrders holdings target total pl = .ok os →
      ∃ tOrders, os = tOrders ++ (holdings.filter fun s =>
          decide (lookupAssoc target s.symbol = none) && decide (0 < s.quantity)).map
            (fun s => ⟨.SELL, s.symbol, s.quantity, s.market_value, s.market_value, 0⟩)
        ∧ ∀ o ∈ tOrders, o.symbol ∈ target.map Prod.fst)
    ∧ (∀ (holdings : List Stock) (target pl : List (String × ℚ)) (total : ℚ)
        (solver : Option (List ℤ)) (os : List RebalanceOrder), total ≠ 0 →
      trackingErrorCalculateOrders holdings target total pl solver = .ok os →
      ∃ tOrders, os = tOrders ++ (holdings.filter fun s =>
          decide (lookupAssoc target s.symbol = none) && decide (0 < s.quantity)).map
            (fun s => ⟨.SELL, s.symbol, s.quantity, s.market_value, s.market_value, 0⟩)
        ∧ ∀ o ∈ tOrders, o.symbol ∈ target.map Prod.fst)
    ∧ (∀ (tolerance : ℚ) (holdings : List Stock) (target pl : List (String × ℚ))
        (total : ℚ) (solver : Option (List ℤ)) (os : List RebalanceOrder), total ≠ 0 →
      tradeMinCalculateOrders tolerance holdings target total pl solver = .ok os →
      ∃ tOrders, os = tOrders ++ (holdings.filter fun s =>
          decide (lookupAssoc target s.symbol = none) && decide (0 < s.quantity)).map
            (fun s => ⟨.SELL, s.symbol, s.quantity, s.market_value, s.market_value, 0⟩)
        ∧ ∀ o ∈ tOrders, o.symbol ∈ target.map Prod.fst) := by
  refine ⟨?_, ?_, ?_⟩
  · intro holdings target pl total os h0 h
    obtain ⟨tOrders, heq, hsym⟩ := simple_decomp h0 h
    rw [liquidationOrders_eq_filter_map] at heq
    exact ⟨tOrders, heq, hsym⟩
  · intro holdings target pl total solver os h0 h
    unfold trackingErrorCalculateOrders at h
    rw [if_neg h0] at h
    split at h
    next e heq => cases h
    next data heq =>
      cases solver with
      | none =>
        obtain ⟨tOrders, heq2, hsym⟩ := simple_decomp h0 h
        rw [liquidationOrders_eq_filter_map] at heq2
        exact ⟨tOrders, heq2, hsym⟩
      | some xs =>
        injection h with h2
        subst h2
        refine ⟨ordersFromSolutionTE total data xs,
          by rw [liquidationOrders_eq_filter_map], ?_⟩
        intro o ho
        have hmem := ordersFromSolutionTE_symbols total ho
        rw [collectData_symbols heq] at hmem
        exact hmem
  · intro tolerance holdings target pl total solver os h0 h
    unfold tradeMinCalculateOrders at h
    rw [if_neg h0] at h
    split at h
    next e heq => cases h
    next data heq =>
      cases solver with
      | none =>
        obtain ⟨tOrders, heq2, hsym⟩ := simple_decomp h0 h
        rw [liquidationOrders_eq_filter_map] at heq2
        exact ⟨tOrders, heq2, hsym⟩
      | some xs =>
        injection h with h2
        subst h2
        rw [ordersFromSolutionTM_eq]
        refine ⟨ordersFromSolutionTE total data xs,
          by rw [liquidationOrders_eq_filter_map], ?_⟩
        intro o ho
        have hmem := ordersFromSolutionTE_symbols total ho
        rw [collectData_symbols heq] at hmem
        exact hmem

/-- C6 witness: the decomposition applied to a concrete portfolio holding
GOOG 5 at 2 (unlisted, liquidated) with target AAPL 1.0 at looked-up price
10 and total value 10, for each strategy. -/
theorem liquidations_appended_witness :
    ((10 : ℚ) ≠ 0)
    ∧ (∃ tOrders, [(⟨.BUY, "AAPL", 1, 10, 10, 0⟩ : RebalanceOrder),
          ⟨.SELL, "GOOG", 5, 10, 10, 0⟩] =
        tOrders ++ (([(⟨"GOOG", 5, 2⟩ : Stock)]).filter fun s =>
          decide (lookupAssoc [("AAPL", 1)] s.symbol = none) &&
            decide (0 < s.quantity)).map
          (fun s => ⟨.SELL, s.symbol, s.quantity, s.market_value, s.market_value, 0⟩)
        ∧ ∀ o ∈ tOrders, o.symbol ∈ ([("AAPL", (1 : ℚ))]).map Prod.fst)
    ∧ (∃ tOrders, [(⟨.BUY, "AAPL", 1, 10, 10, 0⟩ : RebalanceOrder),
          ⟨.SELL, "GOOG", 5, 10, 10, 0⟩] =
        tOrders ++ (([(⟨"GOOG", 5, 2⟩ : Stock)]).filter fun s =>
          decide (lookupAssoc [("AAPL", 1)] s.symbol = none) &&
            decide (0 < s.quantity)).map
          (fun s => ⟨.SELL, s.symbol, s.quantity, s.market_value, s.market_value, 0⟩)
        ∧ ∀ o ∈ tOrders, o.symbol ∈ ([("AAPL", (1 : ℚ))]).map Prod.fst) := by
  have hsimple : simpleCalculateOrders [⟨"GOOG", 5, 2⟩] [("AAPL", 1)] 10
      [("AAPL", 10)] =
      .ok [⟨.BUY, "AAPL", 1, 10, 10, 0⟩, ⟨.SELL, "GOOG", 5, 10, 10, 0⟩] := by
    simp [simpleCalculateOrders, processTargets, resolveSymbol, targetOrder, truncQ,
      liquidationOrders, findStock, lookupAssoc, Stock.market_value]
    norm_num
  have hte : trackingErrorCalculateOrders [⟨"GOOG", 5, 2⟩] [("AAPL", 1)] 10
      [("AAPL", 10)] (some [1]) =
      .ok [⟨.BUY, "AAPL", 1, 10, 10, 0⟩, ⟨.SELL, "GOOG", 5, 10, 10, 0⟩] := by
    simp [trackingErrorCalculateOrders, collectData, ordersFromSolutionTE,
      liquidationOrders, findStock, lookupAssoc, Stock.market_value]
    norm_num
  refine ⟨by norm_num, ?_, ?_⟩
  · exact liquidations_appended_all_strategies.1 [⟨"GOOG", 5, 2⟩] [("AAPL", 1)]
      [("AAPL", 10)] 10 _ (by norm_num) hsimple
  · exact liquidations_appended_all_strategies.2.1 [⟨"GOOG", 5, 2⟩] [("AAPL", 1)]
      [("AAPL", 10)] 10 (some [1]) _ (by norm_num) hte

/-- C1 counterexample: on the one-symbol instance with price 10, no
current holding, weight 1, budget 1000 and the default tolerance 0.02, the
MILP built by the trade-minimization strategy has exactly three variables,
every variable upper bound infinite — so the instance contains no binary
indicator variable y and therefore no BigM link constraint — and the
objective vector is [0, 1, 1]: coefficient 0 on the final-holding variable
x (not the claimed tie-break -epsilon·price = -(0.5/1000)·10 = -1/200) and
1 on each trade leg, minimizing shares traded rather than a count of
traded symbols. -/
theorem trade_min_milp_no_indicator :
    (tradeMinMilp [10] [0] [1] 1000 (1/50)).varUb = [none, none, none]
    ∧ (tradeMinMilp [10] [0] [1] 1000 (1/50)).c = [0, 1, 1]
    ∧ (tradeMinMilp [10] [0] [1] 1000 (1/50)).integrality = [true, true, true] := by
  refine ⟨?_, ?_, ?_⟩
  · simp [tradeMinMilp, List.replicate]
  · simp [tradeMinMilp]
    norm_num [List.range, List.range.loop]
  · simp [tradeMinMilp, List.replicate]

/-- C1 (amended): the trade-minimization MILP has, for n target symbols,
3n integer variables (final holdings x, buy legs t plus, sell legs
t minus), all bounded below by 0 and unbounded above, so it has no binary
indicator variables and no BigM link; its objective evaluated on an
assignment x ++ tplus ++ tminus equals sum tplus + sum tminus — the total
number of shares traded — with zero weight on the x block and no epsilon
tie-break; and its final constraint row is the budget row: the prices on
the x block, upper-bounded by the total value. -/
theorem trade_min_objective_total_trade_legs :
    ∀ (prices : List ℚ) (hqty : List ℤ) (weights : List ℚ) (V tol : ℚ)
      (xs tplus tminus : List ℚ),
      xs.length = prices.length →
      tplus.length = prices.length →
      tminus.length = prices.length →
      dotQ (tradeMinMilp prices hqty weights V tol).c (xs ++ tplus ++ tminus) =
        tplus.sum + tminus.sum
      ∧ (tradeMinMilp prices hqty weights V tol).varUb =
          List.replicate (3 * prices.length) none
      ∧ (tradeMinMilp prices hqty weights V tol).varLb =
          List.replicate (3 * prices.length) 0
      ∧ (tradeMinMilp prices hqty weights V tol).integrality =
          List.replicate (3 * prices.length) true
      ∧ (tradeMinMilp prices hqty weights V tol).rows.getLast? =
          some ⟨prices ++ List.replicate (2 * prices.length) 0, none, some V⟩ := by
  intro prices hqty weights V tol xs tplus tminus hxs htp htm
  refine ⟨?_, rfl, rfl, rfl, ?_⟩
  · rw [tradeMinMilp_c, List.append_assoc]
    rw [dotQ_append _ _ (by rw [List.length_replicate, hxs])]
    rw [dotQ_replicate_zero]
    rw [dotQ_replicate_one (by rw [List.length_append, htp, htm]; omega)]
    rw [List.sum_append]
    ring
  · show (((_ ++ _) ++ _) ++ [_] : List MilpRow).getLast? = _
    rw [List.getLast?_concat]

/-- C1 witness: the amended statement at the one-symbol instance, with the
assignment x = 3, tplus = 1, tminus = 2 whose objective value is 3. -/
theorem trade_min_objective_witness :
    dotQ (tradeMinMilp [10] [0] [1] 1000 (1/50)).c ([3] ++ [1] ++ [2]) =
        ([(1 : ℚ)]).sum + ([(2 : ℚ)]).sum
    ∧ (tradeMinMilp [10] [0] [1] 1000 (1/50)).varUb = List.replicate (3 * 1) none
    ∧ (tradeMinMilp [10] [0] [1] 1000 (1/50)).varLb = List.replicate (3 * 1) 0
    ∧ (tradeMinMilp [10] [0] [1] 1000 (1/50)).integrality =
        List.replicate (3 * 1) true
    ∧ (tradeMinMilp [10] [0] [1] 1000 (1/50)).rows.getLast? =
        some ⟨[10] ++ List.replicate (2 * 1) 0, none, some 1000⟩ := by
  have h := trade_min_objective_total_trade_legs [10] [0] [1] 1000 (1/50)
    [3] [1] [2] rfl rfl rfl
  simpa using h
